import Mathlib

/-!
Verification of the novelty-detection / content-memory engine
(`src/memory.ts` together with the content-memory section of `src/db.ts`).

Strings are modelled as `List Char` (`Str`).  JavaScript string methods
(`replace`, `split`, `trim`, `toLowerCase`) are translated into explicit
recursive functions; the SQLite-backed store is modelled as an in-memory
list of rows; `JSON.stringify`/`JSON.parse` for string arrays are
implemented as an explicit encoder/parser pair; the SHA-256 digest is an
abstract parameter `sha : Str → Str`, since every property proved here
holds uniformly in the digest function applied to the pre-hash string.
All scanning functions are written with structural recursion (a pending
skip counter replaces `lastIndex` advancement of JavaScript regexes), so
that every definition evaluates inside the kernel.
-/

/-- Strings of the JavaScript program, modelled as lists of unicode scalars. -/
abbrev Str := List Char

/-- Membership of a character in the JavaScript `\s` class (the set matched by
`/\s/`): ASCII whitespace, NBSP, and the unicode space separators, plus BOM. -/
def isJsWs (c : Char) : Bool :=
  c.toNat == 9 || c.toNat == 10 || c.toNat == 11 || c.toNat == 12 || c.toNat == 13 ||
  c.toNat == 32 || c.toNat == 0xa0 || c.toNat == 0x1680 ||
  (0x2000 ≤ c.toNat && c.toNat ≤ 0x200a) ||
  c.toNat == 0x2028 || c.toNat == 0x2029 || c.toNat == 0x202f || c.toNat == 0x205f ||
  c.toNat == 0x3000 || c.toNat == 0xfeff

/-- JavaScript `str.replace(/\s+/g, " ")`: every maximal run of whitespace
becomes a single space.  The boolean argument records whether the previous
character was part of a whitespace run. -/
def collapseWsAux : Bool → Str → Str
  | _, [] => []
  | inRun, c :: cs =>
    if isJsWs c then (if inRun then [] else [' ']) ++ collapseWsAux true cs
    else c :: collapseWsAux false cs

/-- JavaScript `str.replace(/\s+/g, " ")`. -/
def collapseWs (s : Str) : Str := collapseWsAux false s

/-- JavaScript `str.trim()`: strip leading and trailing `\s` characters. -/
def trimStr (s : Str) : Str :=
  ((s.dropWhile isJsWs).reverse.dropWhile isJsWs).reverse

/-- JavaScript `str.split(re)` for a character-class regex `[…]+` (used with
`/[.!?]+/`): split at each maximal nonempty run of separator characters,
keeping empty segments at the edges, exactly as `String.prototype.split`
does.  `acc` is the segment built so far (reversed); `inRun` records whether
the previous character belonged to a separator run. -/
def splitRunsGo (isSep : Char → Bool) (acc : Str) (inRun : Bool) : Str → List Str
  | [] => [acc.reverse]
  | c :: cs =>
    if isSep c then
      if inRun then splitRunsGo isSep acc true cs
      else acc.reverse :: splitRunsGo isSep [] true cs
    else splitRunsGo isSep (c :: acc) false cs

/-- Character class `[.!?]` of the sentence-splitting regex. -/
def isSentenceSep (c : Char) : Bool := c == '.' || c == '!' || c == '?'

/-- JavaScript `text.split(/[.!?]+/)`. -/
def splitSentences (s : Str) : List Str := splitRunsGo isSentenceSep [] false s

-- Sanity checks of the split semantics against JavaScript behaviour.
example : splitSentences "a.b".toList = ["a".toList, "b".toList] := by decide
example : splitSentences "".toList = ["".toList] := by decide
example : splitSentences "a..b!".toList = ["a".toList, "b".toList, "".toList] := by decide
example : splitSentences ".a".toList = ["".toList, "a".toList] := by decide
example : collapseWs "a  b\t\nc".toList = "a b c".toList := by decide
example : trimStr "  a b  ".toList = "a b".toList := by decide

/-- Index of the first `'>'` character, if any. -/
def firstGtIdx : Str → Option Nat
  | [] => none
  | c :: cs => if c = '>' then some 0 else (firstGtIdx cs).map (· + 1)

/-- JavaScript `str.replace(/<[^>]+>/g, " ")`.  A match starts at `'<'`,
spans one or more non-`'>'` characters, and ends at the first following
`'>'`.  The `Nat` argument is the number of already-matched characters still
to be skipped (replacing the regex `lastIndex` advancement). -/
def stripTagsAux : Nat → Str → Str
  | _ + 1, [] => []
  | n + 1, _ :: cs => stripTagsAux n cs
  | 0, [] => []
  | 0, c :: cs =>
    if c = '<' then
      match firstGtIdx cs with
      | some (i + 1) => ' ' :: stripTagsAux (i + 2) cs
      | _ => c :: stripTagsAux 0 cs
    else c :: stripTagsAux 0 cs

/-- JavaScript `str.replace(/<[^>]+>/g, " ")`. -/
def stripTags (s : Str) : Str := stripTagsAux 0 s

/-- Whether `pat` is an initial segment of `l`. -/
def listIsPre : Str → Str → Bool
  | [], _ => true
  | _ :: _, [] => false
  | p :: ps, c :: cs => p == c && listIsPre ps cs

/-- JavaScript `str.replace(/pat/g, rep)` for a literal nonempty pattern
`p :: pr`.  The `Nat` argument is the number of already-matched characters
still to be skipped. -/
def replAux (p : Char) (pr rep : Str) : Nat → Str → Str
  | _ + 1, [] => []
  | n + 1, _ :: cs => replAux p pr rep n cs
  | 0, [] => []
  | 0, c :: cs =>
    if c == p && listIsPre pr cs then rep ++ replAux p pr rep pr.length cs
    else c :: replAux p pr rep 0 cs

/-- JavaScript global replacement of the literal string `p :: pr` by `rep`. -/
def replaceLit (p : Char) (pr rep : Str) (s : Str) : Str := replAux p pr rep 0 s

/-- The text-normalization pipeline at the start of `extractKeyFindings`
(`src/memory.ts` lines 23–32): strip tags, decode the six HTML entities in
source order, collapse whitespace, trim. -/
def normalizeHtmlText (htmlContent : Str) : Str :=
  trimStr (collapseWs
    (replaceLit '&' "#039;".toList "'".toList
      (replaceLit '&' "quot;".toList "\"".toList
        (replaceLit '&' "gt;".toList ">".toList
          (replaceLit '&' "lt;".toList "<".toList
            (replaceLit '&' "amp;".toList "&".toList
              (replaceLit '&' "nbsp;".toList " ".toList
                (stripTags htmlContent))))))))

/-- `extractKeyFindings` (`src/memory.ts` lines 21–42): normalize the HTML,
split into sentences on runs of `.`, `!`, `?`, trim each, keep those of
length strictly between 30 and 500, and return the first 10. -/
def extractKeyFindings (htmlContent : Str) : List Str :=
  (((splitSentences (normalizeHtmlText htmlContent)).map trimStr).filter
    (fun s => decide (30 < s.length) && decide (s.length < 500))).take 10

-- Sanity checks against JavaScript behaviour.
example : stripTags "a<b>c<>d".toList = "a c<>d".toList := by decide
example : stripTags "<a<b>c".toList = " c".toList := by decide
example : replaceLit '&' "amp;".toList "&".toList "x&amp;y".toList = "x&y".toList := by decide
example : normalizeHtmlText "<p>a &amp; b</p>".toList = "a & b".toList := by decide
example : extractKeyFindings "".toList = [] := by decide

/-- Index of the first `'"'` character, if any. -/
def quoteIdx : Str → Option Nat
  | [] => none
  | c :: cs => if c = '"' then some 0 else (quoteIdx cs).map (· + 1)

/-- One match attempt of the regex `href="(https?:\/\/[^"]+)"` at the start
of `l`.  On success returns the captured URL (group 1) and the total number
of characters matched. -/
def matchHref (l : Str) : Option (Str × Nat) :=
  if listIsPre "href=\"".toList l then
    let rest := l.drop 6
    let scheme : Option Nat :=
      if listIsPre "https://".toList rest then some 8
      else if listIsPre "http://".toList rest then some 7
      else none
    match scheme with
    | none => none
    | some k =>
      match quoteIdx (rest.drop k) with
      | some 0 => none
      | some (i + 1) => some (rest.take (k + i + 1), 6 + (k + i + 1) + 1)
      | none => none
  else none

/-- The `while ((match = urlRegex.exec(htmlContent)) !== null)` loop of
`extractSourceUrls`: collect every non-overlapping match of
`href="(https?:\/\/[^"]+)"` left to right.  The `Nat` argument is the
number of already-matched characters still to be skipped. -/
def scanUrlsAux : Nat → Str → List Str
  | _ + 1, [] => []
  | n + 1, _ :: cs => scanUrlsAux n cs
  | 0, [] => []
  | 0, c :: cs =>
    match matchHref (c :: cs) with
    | some (url, len) => url :: scanUrlsAux (len - 1) cs
    | none => scanUrlsAux 0 cs

/-- First-occurrence deduplication, as a JavaScript `Set` materialised with
`Array.from` (insertion order). -/
def dedupFirstAux (seen : List Str) : List Str → List Str
  | [] => []
  | x :: xs => if x ∈ seen then dedupFirstAux seen xs else x :: dedupFirstAux (x :: seen) xs

/-- First-occurrence deduplication. -/
def dedupFirst (l : List Str) : List Str := dedupFirstAux [] l

/-- `extractSourceUrls` (`src/memory.ts` lines 47–55): every distinct URL
appearing as `href="http(s)://…"`, in first-seen order. -/
def extractSourceUrls (htmlContent : Str) : List Str :=
  dedupFirst (scanUrlsAux 0 htmlContent)

-- Sanity checks against JavaScript behaviour.
example : extractSourceUrls "<a href=\"https://e.com/a\">x</a><a href=\"https://e.com/a\">y</a>".toList
    = ["https://e.com/a".toList] := by decide
example : extractSourceUrls "href=\"http://a\" href=\"ftp://b\" href=\"https://c\"".toList
    = ["http://a".toList, "https://c".toList] := by decide
example : extractSourceUrls "href=\"https://\"".toList = [] := by decide
example : extractSourceUrls "".toList = [] := by decide

/-- UTF-16 encoding of one unicode scalar (one code unit below `0x10000`,
a surrogate pair above).  JavaScript strings are sequences of UTF-16 code
units, and the default `Array.prototype.sort` comparator orders strings
lexicographically by these units. -/
def u16 (c : Char) : List Nat :=
  if c.toNat < 0x10000 then [c.toNat]
  else [0xD800 + (c.toNat - 0x10000) / 0x400, 0xDC00 + (c.toNat - 0x10000) % 0x400]

/-- The UTF-16 code-unit sequence of a string. -/
def unitsOf (s : Str) : List Nat := s.flatMap u16

/-- Lexicographic order on code-unit sequences. -/
def lexLeNat : List Nat → List Nat → Bool
  | [], _ => true
  | _ :: _, [] => false
  | a :: as, b :: bs => decide (a < b) || (a == b && lexLeNat as bs)

/-- The string order used by the default (comparator-less) JavaScript
`Array.prototype.sort`: lexicographic comparison of UTF-16 code units. -/
def strLe (s t : Str) : Prop := lexLeNat (unitsOf s) (unitsOf t) = true

instance : DecidableRel strLe := fun s t => by unfold strLe; infer_instance

/-- JavaScript `arr.sort()` on an array of strings: some sorted permutation
under `strLe` (the algorithm is implementation-defined; linearity of
`strLe`, proved below, makes the sorted result unique). -/
def sortJs (l : List Str) : List Str := List.insertionSort strLe l

/-- JavaScript `arr.join(sep)` for a one-character separator. -/
def joinSep (sep : Char) : List Str → Str
  | [] => []
  | [x] => x
  | x :: y :: t => x ++ sep :: joinSep sep (y :: t)

/-- The per-finding normalization used by `generateContentHash` (and again
inside `detectNovelContent`): `f.toLowerCase().replace(/\s+/g, " ").trim()`.
`Char.toLower` models the ASCII fragment of `toLowerCase`. -/
def normalizeFinding (f : Str) : Str := trimStr (collapseWs (f.map Char.toLower))

/-- The joined string that `generateContentHash` feeds to SHA-256
(`src/memory.ts` lines 63–66): normalize each finding, sort, join with
`'|'`. -/
def preHashString (keyFindings : List Str) : Str :=
  joinSep '|' (sortJs (keyFindings.map normalizeFinding))

/-- `generateContentHash` (`src/memory.ts` lines 61–69), parameterised by
the digest function `sha` (modelling
`createHash("sha256").update(·).digest("hex")`, an injected primitive of
the Node `crypto` module). -/
def generateContentHash (sha : Str → Str) (keyFindings : List Str) : Str :=
  sha (preHashString keyFindings)

-- Sanity checks.
example : preHashString ["B a".toList, "a  c".toList] = "a c|b a".toList := by decide
example : preHashString [" Finding   with  spaces ".toList] = "finding with spaces".toList := by decide
example : preHashString [] = "".toList := by decide

/-- Lowercase hex digit, as emitted by `JSON.stringify` in `\u00XX` escapes. -/
def hexDigit (n : Nat) : Char :=
  if n < 10 then Char.ofNat (48 + n) else Char.ofNat (87 + n)

/-- The escaping `JSON.stringify` applies to one character inside a string
literal: `"` and `\` are backslash-escaped, the five short control escapes
are used where they exist, other control characters become `\u00XX`, and
everything else is emitted verbatim. -/
def escChar (c : Char) : Str :=
  if c = '"' then ['\\', '"']
  else if c = '\\' then ['\\', '\\']
  else if c.toNat == 8 then ['\\', 'b']
  else if c.toNat == 9 then ['\\', 't']
  else if c.toNat == 10 then ['\\', 'n']
  else if c.toNat == 12 then ['\\', 'f']
  else if c.toNat == 13 then ['\\', 'r']
  else if c.toNat < 32 then ['\\', 'u', '0', '0', hexDigit (c.toNat / 16), hexDigit (c.toNat % 16)]
  else [c]

/-- `JSON.stringify` of one string. -/
def encodeJsonStr (s : Str) : Str := '"' :: s.flatMap escChar ++ ['"']

/-- `JSON.stringify` of an array of strings (no whitespace, comma-joined). -/
def encodeArr (l : List Str) : Str := '[' :: joinSep ',' (l.map encodeJsonStr) ++ [']']

/-- JSON insignificant whitespace. -/
def isJsonWs (c : Char) : Bool := c == ' ' || c == '\t' || c == '\n' || c == '\r'

/-- Numeric value of a hex digit (either case), if it is one. -/
def hexVal (c : Char) : Option Nat :=
  if 48 ≤ c.toNat ∧ c.toNat ≤ 57 then some (c.toNat - 48)
  else if 97 ≤ c.toNat ∧ c.toNat ≤ 102 then some (c.toNat - 87)
  else if 65 ≤ c.toNat ∧ c.toNat ≤ 70 then some (c.toNat - 55)
  else none

/-- Parser state for `JSON.parse` restricted to arrays of strings (the only
shape this program ever stores in the `key_findings` / `source_urls`
columns).  `cur` holds the string being read, reversed. -/
inductive PState where
  | start : PState
  | afterOpen : PState
  | inStr (acc : List Str) (cur : Str) : PState
  | esc (acc : List Str) (cur : Str) : PState
  | hex (acc : List Str) (cur : Str) (digitsLeft val : Nat) : PState
  | afterVal (acc : List Str) : PState
  | expectStr (acc : List Str) : PState
  | done (acc : List Str) : PState

/-- One-pass parser for a JSON array of strings.  Returns `none` on any
input that is not a complete JSON array-of-strings document — modelling the
`JSON.parse` calls of `detectNovelContent` / `getRecentSourceUrls`, whose
failures the source catches and turns into a skipped record.  (Two modelling
notes: a valid JSON document of a different shape also yields `none`, where
the source would instead throw from the subsequent `forEach` — caught by the
same handler; and `\uXXXX` surrogate escapes, which a JavaScript string can
hold as lone code units, are outside the `Char` type and decode to NUL.) -/
def parseStep : PState → Str → Option (List Str)
  | .done acc, [] => some acc
  | _, [] => none
  | st, c :: cs =>
    match st with
    | .start =>
        if isJsonWs c then parseStep .start cs
        else if c = '[' then parseStep .afterOpen cs
        else none
    | .afterOpen =>
        if isJsonWs c then parseStep .afterOpen cs
        else if c = ']' then parseStep (.done []) cs
        else if c = '"' then parseStep (.inStr [] []) cs
        else none
    | .inStr acc cur =>
        if c = '"' then parseStep (.afterVal (acc ++ [cur.reverse])) cs
        else if c = '\\' then parseStep (.esc acc cur) cs
        else if c.toNat < 32 then none
        else parseStep (.inStr acc (c :: cur)) cs
    | .esc acc cur =>
        if c = '"' then parseStep (.inStr acc ('"' :: cur)) cs
        else if c = '\\' then parseStep (.inStr acc ('\\' :: cur)) cs
        else if c = '/' then parseStep (.inStr acc ('/' :: cur)) cs
        else if c = 'b' then parseStep (.inStr acc (Char.ofNat 8 :: cur)) cs
        else if c = 'f' then parseStep (.inStr acc (Char.ofNat 12 :: cur)) cs
        else if c = 'n' then parseStep (.inStr acc ('\n' :: cur)) cs
        else if c = 'r' then parseStep (.inStr acc (Char.ofNat 13 :: cur)) cs
        else if c = 't' then parseStep (.inStr acc ('\t' :: cur)) cs
        else if c = 'u' then parseStep (.hex acc cur 4 0) cs
        else none
    | .hex acc cur digitsLeft val =>
        match hexVal c with
        | some v =>
          match digitsLeft with
          | 0 => none
          | 1 => parseStep (.inStr acc (Char.ofNat (16 * val + v) :: cur)) cs
          | n + 2 => parseStep (.hex acc cur (n + 1) (16 * val + v)) cs
        | none => none
    | .afterVal acc =>
        if isJsonWs c then parseStep (.afterVal acc) cs
        else if c = ',' then parseStep (.expectStr acc) cs
        else if c = ']' then parseStep (.done acc) cs
        else none
    | .expectStr acc =>
        if isJsonWs c then parseStep (.expectStr acc) cs
        else if c = '"' then parseStep (.inStr acc []) cs
        else none
    | .done acc =>
        if isJsonWs c then parseStep (.done acc) cs
        else none

/-- `JSON.parse` restricted to arrays of strings. -/
def decodeArr (s : Str) : Option (List Str) := parseStep .start s

-- Sanity checks.
example : decodeArr "[\"a\",\"b\"]".toList = some ["a".toList, "b".toList] := by decide
example : decodeArr "[]".toList = some [] := by decide
example : decodeArr " [ \"a\\n\" ] ".toList = some ["a\n".toList] := by decide
example : decodeArr "not json".toList = none := by decide
example : decodeArr "[\"a\"".toList = none := by decide
example : decodeArr (encodeArr ["x\\y\"z".toList, "".toList]) = some ["x\\y\"z".toList, "".toList] := by decide

/-- One row of the `content_memory` table (`src/db.ts`).  `key_findings` and
`source_urls` hold JSON text, exactly as the TEXT columns do; `created_at`
holds the timestamp in milliseconds (ISO-8601 strings compare exactly like
their numeric timestamps, so SQL comparisons on the column become `Nat`
comparisons). -/
structure ContentMemoryRow where
  id : Str
  topic : Str
  content_hash : Str
  key_findings : Str
  source_urls : Str
  report_id : Str
  created_at : Nat
deriving DecidableEq

/-- One row of the `notifications` table (the columns `createNotification`
writes). -/
structure NotificationRow where
  id : Str
  report_id : Str
  user_id : Str
  ntype : Str
  title : Str
  message : Str
  read : Bool
  created_at : Nat
deriving DecidableEq

/-- The persistent state touched by this subsystem. -/
structure DbState where
  content_memory : List ContentMemoryRow
  notifications : List NotificationRow
deriving DecidableEq

/-- `ORDER BY created_at DESC` as a stable sort (rows with equal timestamps
keep table order, one deterministic refinement of the unspecified SQL tie
order). -/
def sortRowsDesc (rows : List ContentMemoryRow) : List ContentMemoryRow :=
  List.insertionSort (fun r₁ r₂ => r₂.created_at ≤ r₁.created_at) rows

/-- `getContentMemory` (`src/db.ts` lines 959–973): the topic's rows, most
recent first, limited. -/
def getContentMemory (db : List ContentMemoryRow) (topic : Str) (lim : Nat) :
    List ContentMemoryRow :=
  (sortRowsDesc (db.filter (fun r => r.topic == topic))).take lim

/-- `hasContentHash` (`src/db.ts` lines 975–986): `COUNT(*) > 0` over rows
matching both the topic and the hash. -/
def hasContentHash (db : List ContentMemoryRow) (topic contentHash : Str) : Bool :=
  db.any (fun r => r.topic == topic && r.content_hash == contentHash)

/-- `getRecentSourceUrls` (`src/db.ts` lines 1024–1046): union (in
first-seen order) of the decoded `source_urls` of the topic's rows newer
than the cutoff, silently skipping rows whose JSON fails to parse. -/
def getRecentSourceUrls (db : List ContentMemoryRow) (topic : Str) (daysBack now : Nat) :
    List Str :=
  let cutoff := now - daysBack * 86400000
  let rows := db.filter (fun r => r.topic == topic && decide (cutoff ≤ r.created_at))
  dedupFirst (rows.flatMap (fun r =>
    match decodeArr r.source_urls with
    | some urls => urls
    | none => []))

/-- `saveContentMemory` (`src/db.ts` lines 988–1022): insert one row holding
the JSON-serialized findings and URLs; returns the new table and the row. -/
def saveContentMemory (db : List ContentMemoryRow) (topic contentHash : Str)
    (keyFindings sourceUrls : List Str) (reportId freshId : Str) (now : Nat) :
    List ContentMemoryRow × ContentMemoryRow :=
  let row : ContentMemoryRow :=
    { id := freshId, topic := topic, content_hash := contentHash,
      key_findings := encodeArr keyFindings, source_urls := encodeArr sourceUrls,
      report_id := reportId, created_at := now }
  (db ++ [row], row)

/-- `createNotification` (`src/db.ts` lines 891–918): insert one unread
notification row. -/
def createNotification (notifs : List NotificationRow)
    (reportId userId ntype title message freshId : Str) (now : Nat) :
    List NotificationRow × NotificationRow :=
  let row : NotificationRow :=
    { id := freshId, report_id := reportId, user_id := userId, ntype := ntype,
      title := title, message := message, read := false, created_at := now }
  (notifs ++ [row], row)

/-- Result record of `detectNovelContent`. -/
structure NoveltyVerdict where
  isNovel : Bool
  novelFindings : List Str
  knownFindings : List Str
  novelUrls : List Str
  contentHash : Str
deriving DecidableEq

/-- The set of normalized findings of the topic's 50 most recent records,
as built by the `for (const memory of recentMemories)` loop of
`detectNovelContent` (`src/memory.ts` lines 107–116): rows whose JSON fails
to parse are skipped by the empty `catch`. -/
def recentNormalizedFindings (db : List ContentMemoryRow) (topic : Str) : List Str :=
  (getContentMemory db topic 50).flatMap (fun m =>
    match decodeArr m.key_findings with
    | some findings => findings.map normalizeFinding
    | none => [])

/-- `detectNovelContent` (`src/memory.ts` lines 75–135), parameterised by
the digest function and reading the `content_memory` table at logical time
`now`. -/
def detectNovelContent (sha : Str → Str) (db : List ContentMemoryRow) (now : Nat)
    (topic htmlContent : Str) : NoveltyVerdict :=
  let keyFindings := extractKeyFindings htmlContent
  let sourceUrls := extractSourceUrls htmlContent
  let contentHash := generateContentHash sha keyFindings
  if hasContentHash db topic contentHash then
    { isNovel := false, novelFindings := [], knownFindings := keyFindings,
      novelUrls := [], contentHash := contentHash }
  else
    let recentUrls := getRecentSourceUrls db topic 7 now
    let novelUrls := sourceUrls.filter (fun url => !recentUrls.contains url)
    let recentFindingsSet := recentNormalizedFindings db topic
    let novelFindings := keyFindings.filter
      (fun f => !recentFindingsSet.contains (normalizeFinding f))
    let knownFindings := keyFindings.filter
      (fun f => recentFindingsSet.contains (normalizeFinding f))
    { isNovel := decide (0 < novelFindings.length) || decide (0 < novelUrls.length),
      novelFindings := novelFindings, knownFindings := knownFindings,
      novelUrls := novelUrls, contentHash := contentHash }

/-- Result record of `processReportMemory`. -/
structure ProcessResult where
  isNovel : Bool
  novelFindings : List Str
  notificationCreated : Bool
deriving DecidableEq

instance : DecidableEq (Except Unit ProcessResult) := fun a b =>
  match a, b with
  | .error (), .error () => isTrue rfl
  | .ok r₁, .ok r₂ =>
    if h : r₁ = r₂ then isTrue (by rw [h]) else isFalse (by simp [h])
  | .error _, .ok _ => isFalse (by simp)
  | .ok _, .error _ => isFalse (by simp)

/-- Observable side effects of one `processReportMemory` call, in program
order: the memory write, and the attempt to create a notification. -/
inductive Effect where
  | saveMem (topic contentHash : Str) (keyFindings sourceUrls : List Str) (reportId : Str)
  | notify (reportId userId ntype title message : Str)
deriving DecidableEq

/-- Decimal rendering of a count, for the notification message. -/
def natStr (n : Nat) : Str := (toString n).toList

/-- The `${n > 1 ? "s" : ""}` pluralisation. -/
def pluralS (n : Nat) : Str := if 1 < n then ['s'] else []

/-- The notification title built by `processReportMemory`. -/
def notifTitle (topic : Str) : Str :=
  "New findings for \"".toList ++ topic ++ ['"']

/-- The notification message built by `processReportMemory`. -/
def notifMessage (novelCount urlCount : Nat) : Str :=
  if 0 < novelCount then
    natStr novelCount ++ " new finding".toList ++ pluralS novelCount ++ " detected".toList ++
      (if 0 < urlCount then
        " with ".toList ++ natStr urlCount ++ " new source".toList ++ pluralS urlCount
      else []) ++ ['.']
  else
    natStr urlCount ++ " new source".toList ++ pluralS urlCount ++ " found.".toList

/-- `processReportMemory` (`src/memory.ts` lines 141–192).  `notifyFails`
models the external notification collaborator throwing; the source has no
`try`/`catch` around `createNotification`, so that exception propagates
(the `.error` branch) after the memory write has already been applied.
`freshMemId`/`freshNotifId` model the two `uuidv4()` draws and `now` the
`new Date()` timestamps.  Returns the outcome, the final state, and the
ordered list of attempted side effects. -/
def processReportMemory (sha : Str → Str) (notifyFails : Bool) (db : DbState) (now : Nat)
    (freshMemId freshNotifId : Str) (topic reportId htmlContent userId : Str) :
    Except Unit ProcessResult × DbState × List Effect :=
  let noveltyResult := detectNovelContent sha db.content_memory now topic htmlContent
  let kf := extractKeyFindings htmlContent
  let su := extractSourceUrls htmlContent
  let saved := saveContentMemory db.content_memory topic noveltyResult.contentHash
    kf su reportId freshMemId now
  let db1 : DbState := { db with content_memory := saved.1 }
  let saveEff := Effect.saveMem topic noveltyResult.contentHash kf su reportId
  if noveltyResult.isNovel then
    let novelCount := noveltyResult.novelFindings.length
    let urlCount := noveltyResult.novelUrls.length
    let title := notifTitle topic
    let message := notifMessage novelCount urlCount
    let notifEff := Effect.notify reportId userId "new_report".toList title message
    if notifyFails then
      (.error (), db1, [saveEff, notifEff])
    else
      let created := createNotification db1.notifications reportId userId
        "new_report".toList title message freshNotifId now
      (.ok { isNovel := noveltyResult.isNovel,
             novelFindings := noveltyResult.novelFindings,
             notificationCreated := true },
       { db1 with notifications := created.1 },
       [saveEff, notifEff])
  else
    (.ok { isNovel := noveltyResult.isNovel,
           novelFindings := noveltyResult.novelFindings,
           notificationCreated := false },
     db1, [saveEff])

/-- Concrete input for C9: sentences of trimmed lengths 10, 40 and 600. -/
def exC9 : Str :=
  List.replicate 10 'a' ++ '.' :: ' ' ::
    (List.replicate 40 'b' ++ '!' :: ' ' :: (List.replicate 600 'c' ++ ['?']))

/-- Whether an effect is the Memory Store write. -/
def Effect.isSave : Effect → Bool
  | .saveMem _ _ _ _ _ => true
  | _ => false

/-- Whether an effect is a notification-creation attempt. -/
def Effect.isNotify : Effect → Bool
  | .notify _ _ _ _ _ => true
  | _ => false

/-- Replace each stored JSON field that fails to parse by the encoding of
the empty array.  `detectNovelContent` cannot distinguish a corrupted field
from a well-formed empty one: both contribute nothing. -/
def scrubRow (r : ContentMemoryRow) : ContentMemoryRow :=
  { r with
    key_findings :=
      if (decodeArr r.key_findings).isSome then r.key_findings else encodeArr [],
    source_urls :=
      if (decodeArr r.source_urls).isSome then r.source_urls else encodeArr [] }

/-- Concrete report content for the counterexamples: one long finding plus
one source link. -/
def cexHtmlA : Str :=
  ("this sentence is long enough to be a key finding. " ++
    "<a href=\"https://a.com/x\">l</a>").toList

/-- The same finding and link as `cexHtmlA`, plus one never-seen link. -/
def cexHtmlB : Str :=
  ("this sentence is long enough to be a key finding. " ++
    "<a href=\"https://a.com/x\">l</a> <a href=\"https://b.com/y\">m</a>").toList

/-- The Content Memory Record that processing `cexHtmlA` for topic `"t"`
stores (with the identity digest function). -/
def cexRowC2 : ContentMemoryRow :=
  { id := "m1".toList, topic := "t".toList,
    content_hash := generateContentHash (fun s => s) (extractKeyFindings cexHtmlA),
    key_findings := encodeArr (extractKeyFindings cexHtmlA),
    source_urls := encodeArr (extractSourceUrls cexHtmlA),
    report_id := "r1".toList, created_at := 0 }

/-! ### Linearity of the JavaScript string order -/

theorem charToNat_inj {c d : Char} (h : c.toNat = d.toNat) : c = d :=
  Char.eq_of_val_eq (UInt32.ext h)

theorem charToNat_valid (c : Char) :
    c.toNat < 0xd800 ∨ (0xdfff < c.toNat ∧ c.toNat < 0x110000) := c.valid

theorem lexLeNat_total (a b : List Nat) : lexLeNat a b = true ∨ lexLeNat b a = true := by
  induction a generalizing b with
  | nil => left; simp [lexLeNat]
  | cons x xs ih =>
    cases b with
    | nil => right; simp [lexLeNat]
    | cons y ys =>
      simp only [lexLeNat, Bool.or_eq_true, Bool.and_eq_true, decide_eq_true_eq, beq_iff_eq]
      rcases Nat.lt_trichotomy x y with h | h | h
      · exact Or.inl (Or.inl h)
      · subst h
        rcases ih ys with h' | h'
        · exact Or.inl (Or.inr ⟨rfl, h'⟩)
        · exact Or.inr (Or.inr ⟨rfl, h'⟩)
      · exact Or.inr (Or.inl h)

theorem lexLeNat_trans {a b c : List Nat} (hab : lexLeNat a b = true)
    (hbc : lexLeNat b c = true) : lexLeNat a c = true := by
  induction a generalizing b c with
  | nil => simp [lexLeNat]
  | cons x xs ih =>
    cases b with
    | nil => simp [lexLeNat] at hab
    | cons y ys =>
      cases c with
      | nil => simp [lexLeNat] at hbc
      | cons z zs =>
        simp only [lexLeNat, Bool.or_eq_true, Bool.and_eq_true, decide_eq_true_eq,
          beq_iff_eq] at hab hbc ⊢
        rcases hab with h₁ | ⟨h₁, h₁'⟩ <;> rcases hbc with h₂ | ⟨h₂, h₂'⟩
        · exact Or.inl (h₁.trans h₂)
        · exact Or.inl (h₂ ▸ h₁)
        · exact Or.inl (h₁ ▸ h₂)
        · exact Or.inr ⟨h₁.trans h₂, ih h₁' h₂'⟩

theorem lexLeNat_antisymm {a b : List Nat} (hab : lexLeNat a b = true)
    (hba : lexLeNat b a = true) : a = b := by
  induction a generalizing b with
  | nil =>
    cases b with
    | nil => rfl
    | cons y ys => simp [lexLeNat] at hba
  | cons x xs ih =>
    cases b with
    | nil => simp [lexLeNat] at hab
    | cons y ys =>
      simp only [lexLeNat, Bool.or_eq_true, Bool.and_eq_true, decide_eq_true_eq,
        beq_iff_eq] at hab hba
      rcases hab with h₁ | ⟨h₁, h₁'⟩ <;> rcases hba with h₂ | ⟨h₂, h₂'⟩ <;>
        first
        | omega
        | exact absurd h₁ (by omega)
        | exact absurd h₂ (by omega)
        | exact h₁ ▸ congrArg (x :: ·) (ih h₁' h₂')

theorem u16_ne_nil (c : Char) : u16 c ≠ [] := by
  unfold u16; split <;> simp

theorem unitsOf_inj : ∀ {s t : Str}, unitsOf s = unitsOf t → s = t := by
  intro s
  induction s with
  | nil =>
    intro t h
    cases t with
    | nil => rfl
    | cons d ds =>
      exfalso
      have : unitsOf (d :: ds) = u16 d ++ unitsOf ds := by simp [unitsOf]
      rw [this] at h
      rcases List.append_eq_nil.mp h.symm with ⟨h1, _⟩
      exact u16_ne_nil d h1
  | cons c cs ih =>
    intro t h
    cases t with
    | nil =>
      exfalso
      have : unitsOf (c :: cs) = u16 c ++ unitsOf cs := by simp [unitsOf]
      rw [this] at h
      rcases List.append_eq_nil.mp h with ⟨h1, _⟩
      exact u16_ne_nil c h1
    | cons d ds =>
      have hc := charToNat_valid c
      have hd := charToNat_valid d
      have hs : u16 c ++ unitsOf cs = u16 d ++ unitsOf ds := by
        simpa [unitsOf] using h
      by_cases h1 : c.toNat < 65536 <;> by_cases h2 : d.toNat < 65536 <;>
        simp only [u16, h1, h2, if_true, if_false, ite_true, ite_false,
          List.cons_append, List.nil_append, List.singleton_append,
          List.cons.injEq] at hs
      · rw [charToNat_inj hs.1, ih hs.2]
      · exact absurd hs.1 (by omega)
      · exact absurd hs.1 (by omega)
      · obtain ⟨he1, he2, hs⟩ := hs
        have : c.toNat = d.toNat := by omega
        rw [charToNat_inj this, ih hs]

instance : IsTotal Str strLe := ⟨fun s t => by
  unfold strLe
  rcases lexLeNat_total (unitsOf s) (unitsOf t) with h | h
  · exact Or.inl h
  · exact Or.inr h⟩

instance : IsTrans Str strLe := ⟨fun _ _ _ h₁ h₂ => lexLeNat_trans h₁ h₂⟩

instance : IsAntisymm Str strLe := ⟨fun _ _ h₁ h₂ => unitsOf_inj (lexLeNat_antisymm h₁ h₂)⟩

/-- The JavaScript sort is canonical: permuted inputs sort identically. -/
theorem sortJs_perm_eq {l₁ l₂ : List Str} (h : l₁.Perm l₂) : sortJs l₁ = sortJs l₂ :=
  List.eq_of_perm_of_sorted
    ((List.perm_insertionSort strLe l₁).trans (h.trans (List.perm_insertionSort strLe l₂).symm))
    (List.sorted_insertionSort strLe l₁) (List.sorted_insertionSort strLe l₂)

/-! ### Injectivity of the bar-joined pre-hash string on bar-free findings -/

theorem appendSep_inj {sep : Char} {x y t t' : Str} (hx : sep ∉ x) (hy : sep ∉ y)
    (h : x ++ sep :: t = y ++ sep :: t') : x = y ∧ t = t' := by
  induction x generalizing y with
  | nil =>
    cases y with
    | nil => simpa using h
    | cons d dy =>
      exfalso
      rw [List.nil_append, List.cons_append, List.cons.injEq] at h
      exact hy (h.1 ▸ List.mem_cons_self d dy)
  | cons c cx ih =>
    cases y with
    | nil =>
      exfalso
      rw [List.nil_append, List.cons_append, List.cons.injEq] at h
      exact hx (h.1.symm ▸ List.mem_cons_self c cx)
    | cons d dy =>
      rw [List.cons_append, List.cons_append, List.cons.injEq] at h
      have := ih (fun hm => hx (List.mem_cons_of_mem c hm))
        (fun hm => hy (List.mem_cons_of_mem d hm)) h.2
      exact ⟨by rw [h.1, this.1], this.2⟩

theorem joinSep_mem_of_cons {sep : Char} (y : Str) (ys : List Str) (hne : ys ≠ []) :
    sep ∈ joinSep sep (y :: ys) := by
  cases ys with
  | nil => exact absurd rfl hne
  | cons z zs =>
    show sep ∈ y ++ sep :: joinSep sep (z :: zs)
    exact List.mem_append_right y (List.mem_cons_self sep _)

theorem joinSep_ne_nil {sep : Char} (y : Str) (ys : List Str) (hy : y ≠ []) :
    joinSep sep (y :: ys) ≠ [] := by
  cases ys with
  | nil => simpa [joinSep] using hy
  | cons z zs =>
    show y ++ sep :: joinSep sep (z :: zs) ≠ []
    simp

theorem joinSep_inj : ∀ {l₁ l₂ : List Str},
    (∀ s ∈ l₁, '|' ∉ s ∧ s ≠ []) → (∀ s ∈ l₂, '|' ∉ s ∧ s ≠ []) →
    joinSep '|' l₁ = joinSep '|' l₂ → l₁ = l₂ := by
  intro l₁
  induction l₁ with
  | nil =>
    intro l₂ _ h₂ h
    cases l₂ with
    | nil => rfl
    | cons y ys =>
      exact absurd h.symm (joinSep_ne_nil y ys (h₂ y (List.mem_cons_self y ys)).2)
  | cons x xs ih =>
    intro l₂ h₁ h₂ h
    cases l₂ with
    | nil =>
      exact absurd h (joinSep_ne_nil x xs (h₁ x (List.mem_cons_self x xs)).2)
    | cons y ys =>
      cases xs with
      | nil =>
        cases ys with
        | nil => simpa [joinSep] using h
        | cons y₂ ys₂ =>
          exfalso
          have hmem : '|' ∈ joinSep '|' (y :: y₂ :: ys₂) :=
            joinSep_mem_of_cons y (y₂ :: ys₂) (by simp)
          rw [← h] at hmem
          exact (h₁ x (List.mem_cons_self x [])).1 (by simpa [joinSep] using hmem)
      | cons x₂ xs₂ =>
        cases ys with
        | nil =>
          exfalso
          have hmem : '|' ∈ joinSep '|' (x :: x₂ :: xs₂) :=
            joinSep_mem_of_cons x (x₂ :: xs₂) (by simp)
          rw [h] at hmem
          exact (h₂ y (List.mem_cons_self y [])).1 (by simpa [joinSep] using hmem)
        | cons y₂ ys₂ =>
          have h' : x ++ '|' :: joinSep '|' (x₂ :: xs₂) = y ++ '|' :: joinSep '|' (y₂ :: ys₂) := h
          obtain ⟨hxy, htail⟩ := appendSep_inj (h₁ x (List.mem_cons_self x _)).1
            (h₂ y (List.mem_cons_self y _)).1 h'
          have := ih (fun s hs => h₁ s (List.mem_cons_of_mem x hs))
            (fun s hs => h₂ s (List.mem_cons_of_mem y hs)) htail
          rw [hxy, this]

/-! ### The JSON encoder/parser pair round-trips -/

theorem hexVal_hexDigit : ∀ n < 16, hexVal (hexDigit n) = some n := by decide

theorem step_start_bracket (l : Str) :
    parseStep .start ('[' :: l) = parseStep .afterOpen l := by simp [parseStep, isJsonWs]

theorem step_afterOpen_quote (l : Str) :
    parseStep .afterOpen ('"' :: l) = parseStep (.inStr [] []) l := by simp [parseStep, isJsonWs]

theorem step_afterOpen_close (l : Str) :
    parseStep .afterOpen (']' :: l) = parseStep (.done []) l := by simp [parseStep, isJsonWs]

theorem step_inStr_quote (acc : List Str) (cur l : Str) :
    parseStep (.inStr acc cur) ('"' :: l) =
      parseStep (.afterVal (acc ++ [cur.reverse])) l := by simp [parseStep]

theorem step_inStr_back (acc : List Str) (cur l : Str) :
    parseStep (.inStr acc cur) ('\\' :: l) = parseStep (.esc acc cur) l := by
  simp [parseStep]

theorem step_inStr_plain (acc : List Str) (cur l : Str) {c : Char} (h1 : ¬c = '"')
    (h2 : ¬c = '\\') (h3 : ¬c.toNat < 32) :
    parseStep (.inStr acc cur) (c :: l) = parseStep (.inStr acc (c :: cur)) l := by
  simp [parseStep, h1, h2, h3]

theorem step_afterVal_comma (acc : List Str) (l : Str) :
    parseStep (.afterVal acc) (',' :: l) = parseStep (.expectStr acc) l := by
  simp [parseStep, isJsonWs]

theorem step_afterVal_close (acc : List Str) (l : Str) :
    parseStep (.afterVal acc) (']' :: l) = parseStep (.done acc) l := by
  simp [parseStep, isJsonWs]

theorem step_expectStr_quote (acc : List Str) (l : Str) :
    parseStep (.expectStr acc) ('"' :: l) = parseStep (.inStr acc []) l := by
  simp [parseStep, isJsonWs]

theorem step_done_end (acc : List Str) : parseStep (.done acc) [] = some acc := by
  simp [parseStep]

theorem step_esc_quote (acc : List Str) (cur l : Str) :
    parseStep (.esc acc cur) ('"' :: l) = parseStep (.inStr acc ('"' :: cur)) l := by
  rw [parseStep]; simp

theorem step_esc_back (acc : List Str) (cur l : Str) :
    parseStep (.esc acc cur) ('\\' :: l) = parseStep (.inStr acc ('\\' :: cur)) l := by
  rw [parseStep]; simp

theorem step_esc_b (acc : List Str) (cur l : Str) :
    parseStep (.esc acc cur) ('b' :: l) =
      parseStep (.inStr acc (Char.ofNat 8 :: cur)) l := by rw [parseStep]; simp

theorem step_esc_f (acc : List Str) (cur l : Str) :
    parseStep (.esc acc cur) ('f' :: l) =
      parseStep (.inStr acc (Char.ofNat 12 :: cur)) l := by rw [parseStep]; simp

theorem step_esc_n (acc : List Str) (cur l : Str) :
    parseStep (.esc acc cur) ('n' :: l) =
      parseStep (.inStr acc ('\n' :: cur)) l := by rw [parseStep]; simp

theorem step_esc_r (acc : List Str) (cur l : Str) :
    parseStep (.esc acc cur) ('r' :: l) =
      parseStep (.inStr acc (Char.ofNat 13 :: cur)) l := by rw [parseStep]; simp

theorem step_esc_t (acc : List Str) (cur l : Str) :
    parseStep (.esc acc cur) ('t' :: l) =
      parseStep (.inStr acc ('\t' :: cur)) l := by rw [parseStep]; simp

theorem step_esc_u (acc : List Str) (cur l : Str) {d1 d2 d3 d4 : Char} {a b e g : Nat}
    (h1 : hexVal d1 = some a) (h2 : hexVal d2 = some b) (h3 : hexVal d3 = some e)
    (h4 : hexVal d4 = some g) :
    parseStep (.esc acc cur) ('u' :: d1 :: d2 :: d3 :: d4 :: l) =
      parseStep (.inStr acc (Char.ofNat (4096 * a + 256 * b + 16 * e + g) :: cur)) l := by
  simp [parseStep, h1, h2, h3, h4]
  have : 16 * (16 * (16 * a + b) + e) + g = 4096 * a + 256 * b + 16 * e + g := by ring
  rw [this]

theorem charToNat_ofNat {n : Nat} (h : n.isValidChar) : (Char.ofNat n).toNat = n := by
  unfold Char.ofNat
  rw [dif_pos h]
  unfold Char.ofNatAux Char.toNat
  simp [UInt32.toNat]

theorem cons1_append (a : Char) (l : Str) : ([a] : Str) ++ l = a :: l := rfl

theorem cons2_append (a b : Char) (l : Str) : ([a, b] : Str) ++ l = a :: b :: l := rfl

theorem cons6_append (a b c d e f : Char) (l : Str) :
    ([a, b, c, d, e, f] : Str) ++ l = a :: b :: c :: d :: e :: f :: l := rfl

theorem parse_escBody (s : Str) : ∀ acc cur rest,
    parseStep (.inStr acc cur) (s.flatMap escChar ++ '"' :: rest) =
      parseStep (.afterVal (acc ++ [cur.reverse ++ s])) rest := by
  induction s with
  | nil => intro acc cur rest; simp [step_inStr_quote]
  | cons c cs ih =>
    intro acc cur rest
    have hflat : (c :: cs).flatMap escChar ++ '"' :: rest =
        escChar c ++ (cs.flatMap escChar ++ '"' :: rest) := by simp
    rw [hflat]
    have hrw : ∀ c' : Char, cur.reverse ++ c' :: cs = (c' :: cur).reverse ++ cs := by
      intro c'; simp
    by_cases h1 : c = '"'
    · subst h1
      rw [show escChar '"' = ['\\', '"'] from rfl, cons2_append,
        step_inStr_back, step_esc_quote, ih, hrw]
    · by_cases h2 : c = '\\'
      · subst h2
        rw [show escChar '\\' = ['\\', '\\'] from rfl, cons2_append,
          step_inStr_back, step_esc_back, ih, hrw]
      · by_cases h3 : c.toNat = 8
        · have hc : escChar c = ['\\', 'b'] := by simp [escChar, h1, h2, h3]
          have hcb : Char.ofNat 8 = c := charToNat_inj (by
            rw [(by decide : (Char.ofNat 8).toNat = 8), h3])
          rw [hc, cons2_append, step_inStr_back, step_esc_b, hcb, ih, hrw]
        · by_cases h4 : c.toNat = 9
          · have hc : escChar c = ['\\', 't'] := by simp [escChar, h1, h2, h3, h4]
            have hcb : ('\t' : Char) = c := charToNat_inj (by
              rw [(by decide : ('\t' : Char).toNat = 9), h4])
            rw [hc, cons2_append, step_inStr_back, step_esc_t, hcb, ih, hrw]
          · by_cases h5 : c.toNat = 10
            · have hc : escChar c = ['\\', 'n'] := by simp [escChar, h1, h2, h3, h4, h5]
              have hcb : ('\n' : Char) = c := charToNat_inj (by
                rw [(by decide : ('\n' : Char).toNat = 10), h5])
              rw [hc, cons2_append, step_inStr_back, step_esc_n, hcb, ih, hrw]
            · by_cases h6 : c.toNat = 12
              · have hc : escChar c = ['\\', 'f'] := by simp [escChar, h1, h2, h3, h4, h5, h6]
                have hcb : Char.ofNat 12 = c := charToNat_inj (by
                  rw [(by decide : (Char.ofNat 12).toNat = 12), h6])
                rw [hc, cons2_append, step_inStr_back, step_esc_f, hcb, ih, hrw]
              · by_cases h7 : c.toNat = 13
                · have hc : escChar c = ['\\', 'r'] := by
                    simp [escChar, h1, h2, h3, h4, h5, h6, h7]
                  have hcb : Char.ofNat 13 = c := charToNat_inj (by
                    rw [(by decide : (Char.ofNat 13).toNat = 13), h7])
                  rw [hc, cons2_append, step_inStr_back, step_esc_r, hcb, ih, hrw]
                · by_cases h8 : c.toNat < 32
                  · have hc : escChar c =
                        ['\\', 'u', '0', '0', hexDigit (c.toNat / 16), hexDigit (c.toNat % 16)] := by
                      simp [escChar, h1, h2, h3, h4, h5, h6, h7, h8]
                    rw [hc, cons6_append, step_inStr_back,
                      step_esc_u acc cur _ (by decide : hexVal '0' = some 0)
                        (by decide : hexVal '0' = some 0)
                        (hexVal_hexDigit (c.toNat / 16) (by omega))
                        (hexVal_hexDigit (c.toNat % 16) (by omega))]
                    have harith : 4096 * 0 + 256 * 0 + 16 * (c.toNat / 16) + c.toNat % 16 =
                        c.toNat := by omega
                    have hcb : Char.ofNat (4096 * 0 + 256 * 0 + 16 * (c.toNat / 16) +
                        c.toNat % 16) = c := by
                      apply charToNat_inj
                      rw [charToNat_ofNat (by rw [harith]; exact Or.inl (by omega)), harith]
                    rw [hcb, ih, hrw]
                  · have hc : escChar c = [c] := by
                      simp [escChar, h1, h2, h3, h4, h5, h6, h7, h8]
                    rw [hc, cons1_append, step_inStr_plain acc cur _ h1 h2 h8, ih, hrw]

theorem parse_afterVal (xs : List Str) : ∀ acc,
    parseStep (.afterVal acc) (xs.flatMap (fun x => ',' :: encodeJsonStr x) ++ [']']) =
      some (acc ++ xs) := by
  induction xs with
  | nil =>
    intro acc
    simp only [List.flatMap_nil, List.nil_append]
    rw [step_afterVal_close, step_done_end, List.append_nil]
  | cons x xs ih =>
    intro acc
    have hflat : (x :: xs).flatMap (fun x => ',' :: encodeJsonStr x) ++ [']'] =
        ',' :: ('"' :: (x.flatMap escChar ++ ['"'])) ++
          (xs.flatMap (fun x => ',' :: encodeJsonStr x) ++ [']']) := by
      simp [encodeJsonStr]
    rw [hflat, List.cons_append, step_afterVal_comma, List.cons_append, step_expectStr_quote]
    have hassoc : (x.flatMap escChar ++ ['"']) ++
        (xs.flatMap (fun x => ',' :: encodeJsonStr x) ++ [']']) =
        x.flatMap escChar ++ '"' :: (xs.flatMap (fun x => ',' :: encodeJsonStr x) ++ [']']) := by
      simp
    rw [hassoc, parse_escBody, ih, List.reverse_nil, List.nil_append, List.append_assoc,
      List.singleton_append]

theorem joinSep_map_flatMap (f : Str → Str) (x : Str) (xs : List Str) :
    joinSep ',' ((x :: xs).map f) = f x ++ xs.flatMap (fun y => ',' :: f y) := by
  induction xs generalizing x with
  | nil => simp [joinSep]
  | cons y ys ih =>
    show joinSep ',' (f x :: f y :: ys.map f) = _
    rw [joinSep]
    · show f x ++ ',' :: joinSep ',' ((y :: ys).map f) = _
      rw [ih y]
      simp

/-- The encoder/parser pair round-trips: decoding what `saveContentMemory`
writes yields back the stored list. -/
theorem decodeArr_encodeArr (l : List Str) : decodeArr (encodeArr l) = some l := by
  cases l with
  | nil => decide
  | cons x xs =>
    unfold decodeArr encodeArr
    rw [joinSep_map_flatMap encodeJsonStr x xs, List.cons_append, step_start_bracket]
    have h1 : (encodeJsonStr x ++ xs.flatMap (fun y => ',' :: encodeJsonStr y)) ++ [']'] =
        '"' :: (x.flatMap escChar ++
          '"' :: (xs.flatMap (fun y => ',' :: encodeJsonStr y) ++ [']'])) := by
      simp [encodeJsonStr]
    rw [h1, step_afterOpen_quote, parse_escBody, parse_afterVal]
    simp

/-! ### Claim theorems -/

/-- C4: `generateContentHash` is invariant under permutation and under the
per-finding normalization (lowercasing, whitespace collapsing, trimming):
whenever two finding lists have permuted normalized images, the digest —
for every digest function — is identical. -/
theorem claim_C4 (sha : Str → Str) (l₁ l₂ : List Str)
    (h : (l₁.map normalizeFinding).Perm (l₂.map normalizeFinding)) :
    generateContentHash sha l₁ = generateContentHash sha l₂ := by
  unfold generateContentHash preHashString
  rw [sortJs_perm_eq h]

/-- Witness for C4: a permutation combined with case changes, run-collapsed
whitespace, and added leading/trailing whitespace hashes identically. -/
theorem claim_C4_witness :
    generateContentHash (fun s => s)
        ["Finding   with   spaces".toList, "Second FINDING here okay".toList] =
      generateContentHash (fun s => s)
        ["second finding HERE okay".toList, " finding with spaces ".toList] :=
  claim_C4 (fun s => s) _ _ (by decide)

/-- C5 (amended): the pre-hash joined string determines the set of
normalized findings only on lists whose normalized findings are nonempty
and contain no `'|'` — the code never enforces the claimed separator
guarantee.  Under those side conditions, equal digests of an injective
digest function force equal normalized finding sets. -/
theorem claim_C5 (sha : Str → Str) (hsha : Function.Injective sha) (l₁ l₂ : List Str)
    (h₁ : ∀ s ∈ l₁.map normalizeFinding, '|' ∉ s ∧ s ≠ [])
    (h₂ : ∀ s ∈ l₂.map normalizeFinding, '|' ∉ s ∧ s ≠ [])
    (heq : generateContentHash sha l₁ = generateContentHash sha l₂) :
    ∀ x, x ∈ l₁.map normalizeFinding ↔ x ∈ l₂.map normalizeFinding := by
  have hpre : preHashString l₁ = preHashString l₂ := hsha heq
  unfold preHashString at hpre
  have hs₁ : ∀ s ∈ sortJs (l₁.map normalizeFinding), '|' ∉ s ∧ s ≠ [] := fun s hs =>
    h₁ s ((List.perm_insertionSort strLe _).mem_iff.mp hs)
  have hs₂ : ∀ s ∈ sortJs (l₂.map normalizeFinding), '|' ∉ s ∧ s ≠ [] := fun s hs =>
    h₂ s ((List.perm_insertionSort strLe _).mem_iff.mp hs)
  have hsort : sortJs (l₁.map normalizeFinding) = sortJs (l₂.map normalizeFinding) :=
    joinSep_inj hs₁ hs₂ hpre
  intro x
  rw [← (List.perm_insertionSort strLe (l₁.map normalizeFinding)).mem_iff,
    ← (List.perm_insertionSort strLe (l₂.map normalizeFinding)).mem_iff]
  show x ∈ sortJs (l₁.map normalizeFinding) ↔ x ∈ sortJs (l₂.map normalizeFinding)
  rw [hsort]

/-- Witness for C5: two bar-free lists with equal digests have the same
normalized findings. -/
theorem claim_C5_witness :
    ("ab".toList ∈ (["ab".toList] : List Str).map normalizeFinding) ↔
      ("ab".toList ∈ (["AB ".toList] : List Str).map normalizeFinding) :=
  claim_C5 (fun s => s) (fun _ _ h => h) ["ab".toList] ["AB ".toList]
    (by decide) (by decide) (by decide) "ab".toList

/-- Counterexample for C5 as stated: the separator `'|'` can occur inside a
finding, so the pre-hash strings of `["a|b"]` and `["a", "b"]` coincide even
though their normalized finding sets differ (and hence every digest
function, collision-resistant or not, collides on them). -/
theorem claim_C5_cex :
    preHashString ["a|b".toList] = preHashString ["a".toList, "b".toList] ∧
      ¬(("a".toList ∈ (["a|b".toList] : List Str).map normalizeFinding) ↔
        ("a".toList ∈ ((["a".toList, "b".toList] : List Str).map normalizeFinding))) := by
  decide

set_option maxRecDepth 4000 in
/-- C9: `extractKeyFindings` returns exactly the trimmed sentences (split on
runs of `.`, `!`, `?` of the normalized text) of length strictly between 30
and 500, capped at the first 10 in original order; an input with sentences
of lengths 10, 40 and 600 yields only the 40-character one, and the empty
input yields the empty sequence. -/
theorem claim_C9 :
    (∀ html, extractKeyFindings html =
      (((splitSentences (normalizeHtmlText html)).map trimStr).filter
        (fun t => decide (30 < t.length ∧ t.length < 500))).take 10) ∧
    extractKeyFindings exC9 = [List.replicate 40 'b'] ∧
    extractKeyFindings [] = [] := by
  refine ⟨fun html => ?_, by decide, by decide⟩
  unfold extractKeyFindings
  simp only [Bool.decide_and]

/-! ### Properties of `detectNovelContent` -/

theorem detect_contentHash (sha : Str → Str) (db : List ContentMemoryRow) (now : Nat)
    (topic html : Str) :
    (detectNovelContent sha db now topic html).contentHash =
      generateContentHash sha (extractKeyFindings html) := by
  simp only [detectNovelContent]
  split <;> rfl

theorem detect_hash_short (sha : Str → Str) (db : List ContentMemoryRow) (now : Nat)
    (topic html : Str)
    (h : hasContentHash db topic (generateContentHash sha (extractKeyFindings html)) = true) :
    detectNovelContent sha db now topic html =
      { isNovel := false, novelFindings := [], knownFindings := extractKeyFindings html,
        novelUrls := [], contentHash := generateContentHash sha (extractKeyFindings html) } := by
  unfold detectNovelContent
  rw [if_pos h]

theorem detect_no_hash (sha : Str → Str) (db : List ContentMemoryRow) (now : Nat)
    (topic html : Str)
    (h : hasContentHash db topic (generateContentHash sha (extractKeyFindings html)) = false) :
    detectNovelContent sha db now topic html =
      { isNovel :=
          decide (0 < ((extractKeyFindings html).filter (fun f =>
            !(recentNormalizedFindings db topic).contains (normalizeFinding f))).length) ||
          decide (0 < ((extractSourceUrls html).filter (fun url =>
            !(getRecentSourceUrls db topic 7 now).contains url)).length),
        novelFindings := (extractKeyFindings html).filter (fun f =>
          !(recentNormalizedFindings db topic).contains (normalizeFinding f)),
        knownFindings := (extractKeyFindings html).filter (fun f =>
          (recentNormalizedFindings db topic).contains (normalizeFinding f)),
        novelUrls := (extractSourceUrls html).filter (fun url =>
          !(getRecentSourceUrls db topic 7 now).contains url),
        contentHash := generateContentHash sha (extractKeyFindings html) } := by
  unfold detectNovelContent
  rw [if_neg (by simp [h])]

/-- C2 (amended): `isNovel` is true iff the exact content hash is absent
from the topic's entire stored history and at least one finding (against
the 50 most recent records, normalized) or source URL (against the 7-day
window) is new.  The hash short-circuit consults all of history, so a
report whose findings hash-match any previous report is classified not
novel even when it carries a never-seen URL. -/
theorem claim_C2 (sha : Str → Str) (db : List ContentMemoryRow) (now : Nat)
    (topic html : Str) :
    (detectNovelContent sha db now topic html).isNovel = true ↔
      (hasContentHash db topic (generateContentHash sha (extractKeyFindings html)) = false ∧
        ((∃ f ∈ extractKeyFindings html,
            normalizeFinding f ∉ recentNormalizedFindings db topic) ∨
          (∃ u ∈ extractSourceUrls html, u ∉ getRecentSourceUrls db topic 7 now))) := by
  cases hh : hasContentHash db topic (generateContentHash sha (extractKeyFindings html)) with
  | true => rw [detect_hash_short sha db now topic html hh]; simp
  | false =>
    rw [detect_no_hash sha db now topic html hh]
    simp only [Bool.or_eq_true, decide_eq_true_eq, List.length_pos_iff_exists_mem,
      List.mem_filter, hh, true_and]
    constructor
    · rintro (⟨f, ⟨hf, hnf⟩⟩ | ⟨u, ⟨hu, hnu⟩⟩)
      · exact Or.inl ⟨f, hf, by simpa using hnf⟩
      · exact Or.inr ⟨u, hu, by simpa using hnu⟩
    · rintro (⟨f, hf, hnf⟩ | ⟨u, hu, hnu⟩)
      · exact Or.inl ⟨f, ⟨hf, by simpa using hnf⟩⟩
      · exact Or.inr ⟨u, ⟨hu, by simpa using hnu⟩⟩

set_option maxRecDepth 8000 in
/-- Counterexample for C2 as stated: after one record for topic `"t"` whose
findings hash-match the new report, `detectNovelContent` returns
`isNovel = false` even though the report carries the source URL
`https://b.com/y`, which is absent from the topic's recent history.  The
collision is at the pre-hash-string level, so the choice of digest function
is immaterial. -/
theorem claim_C2_cex :
    (detectNovelContent (fun s => s) [cexRowC2] 0 "t".toList cexHtmlB).isNovel = false ∧
    "https://b.com/y".toList ∈ extractSourceUrls cexHtmlB ∧
    "https://b.com/y".toList ∉ getRecentSourceUrls [cexRowC2] "t".toList 7 0 := by
  decide

/-- C8: topic isolation.  The verdict for a topic depends only on the store
rows whose `topic` column equals (case-sensitively) that exact topic
string: any change confined to other topics leaves the verdict unchanged. -/
theorem claim_C8 (sha : Str → Str) (now : Nat) (topic html : Str)
    (db db' : List ContentMemoryRow)
    (h : db.filter (fun r => r.topic == topic) = db'.filter (fun r => r.topic == topic)) :
    detectNovelContent sha db now topic html = detectNovelContent sha db' now topic html := by
  have hhas : ∀ hsh, hasContentHash db topic hsh = hasContentHash db' topic hsh := by
    intro hsh
    unfold hasContentHash
    rw [show (db.any fun r => r.topic == topic && r.content_hash == hsh) =
        ((db.filter (fun r => r.topic == topic)).any fun r => r.content_hash == hsh) from
      List.any_filter.symm, h, List.any_filter]
  have hmem : ∀ lim, getContentMemory db topic lim = getContentMemory db' topic lim := by
    intro lim
    unfold getContentMemory
    rw [h]
  have hurls : getRecentSourceUrls db topic 7 now = getRecentSourceUrls db' topic 7 now := by
    have hsplit : ∀ l : List ContentMemoryRow,
        l.filter (fun r => r.topic == topic && decide (now - 7 * 86400000 ≤ r.created_at)) =
          (l.filter (fun r => r.topic == topic)).filter
            (fun r => decide (now - 7 * 86400000 ≤ r.created_at)) := by
      intro l
      rw [List.filter_filter]
      exact List.filter_congr (fun a _ => Bool.and_comm _ _)
    simp only [getRecentSourceUrls]
    rw [hsplit db, hsplit db', h]
  simp only [detectNovelContent, recentNormalizedFindings, hhas, hmem, hurls]

/-- Witness for C8: a record under topic `"a"` does not change the verdict
for topic `"b"`. -/
theorem claim_C8_witness :
    detectNovelContent (fun s => s)
        [{ id := [], topic := "a".toList, content_hash := [], key_findings := [],
           source_urls := [], report_id := [], created_at := 0 }] 0 "b".toList cexHtmlA =
      detectNovelContent (fun s => s) [] 0 "b".toList cexHtmlA :=
  claim_C8 (fun s => s) 0 "b".toList cexHtmlA _ _ (by decide)

/-! ### Corrupted JSON rows contribute nothing to novelty detection -/

theorem scrubRow_topic (r : ContentMemoryRow) : (scrubRow r).topic = r.topic := rfl

theorem scrubRow_hash (r : ContentMemoryRow) :
    (scrubRow r).content_hash = r.content_hash := rfl

theorem scrubRow_created (r : ContentMemoryRow) :
    (scrubRow r).created_at = r.created_at := rfl

theorem scrubRow_findings_match (r : ContentMemoryRow) :
    (match decodeArr (scrubRow r).key_findings with
      | some findings => findings.map normalizeFinding
      | none => []) =
    (match decodeArr r.key_findings with
      | some findings => findings.map normalizeFinding
      | none => []) := by
  unfold scrubRow
  cases h : decodeArr r.key_findings with
  | some fs => simp [h]
  | none => simp [h, decodeArr_encodeArr]

theorem scrubRow_urls_match (r : ContentMemoryRow) :
    (match decodeArr (scrubRow r).source_urls with
      | some urls => urls
      | none => []) =
    (match decodeArr r.source_urls with
      | some urls => urls
      | none => []) := by
  unfold scrubRow
  cases h : decodeArr r.source_urls with
  | some us => simp [h]
  | none => simp [h, decodeArr_encodeArr]

theorem orderedInsert_map_scrub (x : ContentMemoryRow) (l : List ContentMemoryRow) :
    (l.map scrubRow).orderedInsert (fun r₁ r₂ => r₂.created_at ≤ r₁.created_at) (scrubRow x) =
      (l.orderedInsert (fun r₁ r₂ => r₂.created_at ≤ r₁.created_at) x).map scrubRow := by
  induction l with
  | nil => rfl
  | cons y ys ih =>
    simp only [List.map_cons, List.orderedInsert, scrubRow_created]
    by_cases h : y.created_at ≤ x.created_at
    · rw [if_pos h, if_pos h]
      rfl
    · rw [if_neg h, if_neg h, List.map_cons, ih]

theorem sortRowsDesc_map_scrub (l : List ContentMemoryRow) :
    sortRowsDesc (l.map scrubRow) = (sortRowsDesc l).map scrubRow := by
  unfold sortRowsDesc
  induction l with
  | nil => rfl
  | cons r l ih =>
    simp only [List.map_cons, List.insertionSort]
    rw [ih, orderedInsert_map_scrub]

theorem getContentMemory_map_scrub (db : List ContentMemoryRow) (topic : Str) (lim : Nat) :
    getContentMemory (db.map scrubRow) topic lim = (getContentMemory db topic lim).map scrubRow := by
  unfold getContentMemory
  rw [List.filter_map]
  have hp : ((fun r : ContentMemoryRow => r.topic == topic) ∘ scrubRow) =
      (fun r : ContentMemoryRow => r.topic == topic) := by
    funext r
    simp [Function.comp, scrubRow_topic]
  rw [hp, sortRowsDesc_map_scrub, ← List.map_take]

/-- C10: `detectNovelContent` treats a record whose stored `key_findings`
or `source_urls` is not valid JSON exactly like one storing an empty array:
the corrupted fields are skipped, contribute no known findings and no
recent URLs, and no error is surfaced (the function is total).  A finding
or URL recorded only in such a record is therefore classified as novel
again. -/
theorem claim_C10 (sha : Str → Str) (db : List ContentMemoryRow) (now : Nat)
    (topic html : Str) :
    detectNovelContent sha (db.map scrubRow) now topic html =
      detectNovelContent sha db now topic html := by
  have hhas : ∀ hsh, hasContentHash (db.map scrubRow) topic hsh = hasContentHash db topic hsh := by
    intro hsh
    unfold hasContentHash
    rw [List.any_map]
    rfl
  have hurl : getRecentSourceUrls (db.map scrubRow) topic 7 now =
      getRecentSourceUrls db topic 7 now := by
    simp only [getRecentSourceUrls]
    rw [List.filter_map]
    have hp : ((fun r : ContentMemoryRow =>
        r.topic == topic && decide (now - 7 * 86400000 ≤ r.created_at)) ∘ scrubRow) =
        (fun r : ContentMemoryRow =>
          r.topic == topic && decide (now - 7 * 86400000 ≤ r.created_at)) := by
      funext r
      simp [Function.comp, scrubRow_topic, scrubRow_created]
    rw [hp, List.flatMap_map]
    exact congrArg dedupFirst (congrArg _ (funext fun r => scrubRow_urls_match r))
  have hfind : recentNormalizedFindings (db.map scrubRow) topic =
      recentNormalizedFindings db topic := by
    unfold recentNormalizedFindings
    rw [getContentMemory_map_scrub, List.flatMap_map]
    exact congrArg _ (funext fun r => scrubRow_findings_match r)
  simp only [detectNovelContent, hhas, hurl, hfind]

/-! ### Properties of `processReportMemory` -/

theorem process_content_memory (sha : Str → Str) (fails : Bool) (db : DbState) (now : Nat)
    (mid nid topic rid html uid : Str) :
    ((processReportMemory sha fails db now mid nid topic rid html uid).2.1).content_memory =
      db.content_memory ++
        [{ id := mid, topic := topic,
           content_hash := generateContentHash sha (extractKeyFindings html),
           key_findings := encodeArr (extractKeyFindings html),
           source_urls := encodeArr (extractSourceUrls html),
           report_id := rid, created_at := now }] := by
  simp only [processReportMemory, saveContentMemory, detect_contentHash]
  split
  · split <;> rfl
  · rfl

theorem process_result (sha : Str → Str) (fails : Bool) (db : DbState) (now : Nat)
    (mid nid topic rid html uid : Str) :
    (processReportMemory sha fails db now mid nid topic rid html uid).1 =
      (if (detectNovelContent sha db.content_memory now topic html).isNovel then
        (if fails then .error () else
          .ok { isNovel := (detectNovelContent sha db.content_memory now topic html).isNovel,
                novelFindings :=
                  (detectNovelContent sha db.content_memory now topic html).novelFindings,
                notificationCreated := true })
      else
        .ok { isNovel := (detectNovelContent sha db.content_memory now topic html).isNovel,
              novelFindings :=
                (detectNovelContent sha db.content_memory now topic html).novelFindings,
              notificationCreated := false }) := by
  simp only [processReportMemory]
  split
  · split <;> rfl
  · rfl

theorem process_effects (sha : Str → Str) (fails : Bool) (db : DbState) (now : Nat)
    (mid nid topic rid html uid : Str) :
    (processReportMemory sha fails db now mid nid topic rid html uid).2.2 =
      Effect.saveMem topic (generateContentHash sha (extractKeyFindings html))
          (extractKeyFindings html) (extractSourceUrls html) rid ::
        (if (detectNovelContent sha db.content_memory now topic html).isNovel then
          [Effect.notify rid uid "new_report".toList (notifTitle topic)
            (notifMessage
              (detectNovelContent sha db.content_memory now topic html).novelFindings.length
              (detectNovelContent sha db.content_memory now topic html).novelUrls.length)]
        else []) := by
  simp only [processReportMemory, detect_contentHash]
  split
  · split <;> rfl
  · rfl

/-- C7: every Content Memory Record persisted by `processReportMemory`
stores as `content_hash` exactly the Hasher applied to the stored (JSON
encoded) finding list; the hash is never set independently. -/
theorem claim_C7 (sha : Str → Str) (fails : Bool) (db : DbState) (now : Nat)
    (mid nid topic rid html uid : Str) :
    ∃ row fl,
      (processReportMemory sha fails db now mid nid topic rid html uid).2.1.content_memory =
        db.content_memory ++ [row] ∧
      decodeArr row.key_findings = some fl ∧
      row.content_hash = generateContentHash sha fl := by
  refine ⟨_, extractKeyFindings html,
    process_content_memory sha fails db now mid nid topic rid html uid, ?_, rfl⟩
  exact decodeArr_encodeArr _

/-- C3: whenever the store already holds `(topic, contentHash)`,
`detectNovelContent` short-circuits to the not-novel verdict with all
findings known; consequently, right after any `processReportMemory` call
on the same content and topic (the write is applied even when the
notification step fails), `detectNovelContent` on the resulting store
returns that same verdict. -/
theorem claim_C3 (sha : Str → Str) :
    (∀ (db : List ContentMemoryRow) (now : Nat) (topic html : Str),
      hasContentHash db topic (generateContentHash sha (extractKeyFindings html)) = true →
      detectNovelContent sha db now topic html =
        { isNovel := false, novelFindings := [], knownFindings := extractKeyFindings html,
          novelUrls := [], contentHash := generateContentHash sha (extractKeyFindings html) }) ∧
    (∀ (fails : Bool) (db : DbState) (now now' : Nat) (mid nid topic rid html uid : Str),
      detectNovelContent sha
        (processReportMemory sha fails db now mid nid topic rid html uid).2.1.content_memory
        now' topic html =
        { isNovel := false, novelFindings := [], knownFindings := extractKeyFindings html,
          novelUrls := [], contentHash := generateContentHash sha (extractKeyFindings html) }) := by
  constructor
  · intro db now topic html h
    exact detect_hash_short sha db now topic html h
  · intro fails db now now' mid nid topic rid html uid
    apply detect_hash_short
    rw [process_content_memory]
    unfold hasContentHash
    rw [List.any_append]
    simp

/-- Witness for C3: a store holding the hash of the empty content for topic
`"t"` makes detection short-circuit. -/
theorem claim_C3_witness :
    detectNovelContent (fun s => s)
        [{ id := [], topic := "t".toList, content_hash := [], key_findings := [],
           source_urls := [], report_id := [], created_at := 0 }] 0 "t".toList [] =
      { isNovel := false, novelFindings := [], knownFindings := [], novelUrls := [],
        contentHash := [] } :=
  (claim_C3 (fun s => s)).1
    [{ id := [], topic := "t".toList, content_hash := [], key_findings := [],
       source_urls := [], report_id := [], created_at := 0 }] 0 "t".toList [] (by decide)

/-- C1 (amended): if the notification collaborator fails after the memory
write, `processReportMemory` does NOT return a degraded success — the
source has no `try`/`catch` around `createNotification`, so the error
propagates and the whole call rejects; but the Content Memory Record is
already committed (the write strictly precedes the notification attempt). -/
theorem claim_C1 (sha : Str → Str) (db : DbState) (now : Nat)
    (mid nid topic rid html uid : Str)
    (h : (detectNovelContent sha db.content_memory now topic html).isNovel = true) :
    (processReportMemory sha true db now mid nid topic rid html uid).1 = .error () ∧
    (processReportMemory sha true db now mid nid topic rid html uid).2.1.content_memory =
      db.content_memory ++
        [{ id := mid, topic := topic,
           content_hash := generateContentHash sha (extractKeyFindings html),
           key_findings := encodeArr (extractKeyFindings html),
           source_urls := encodeArr (extractSourceUrls html),
           report_id := rid, created_at := now }] ∧
    (processReportMemory sha true db now mid nid topic rid html uid).2.2 =
      [Effect.saveMem topic (generateContentHash sha (extractKeyFindings html))
          (extractKeyFindings html) (extractSourceUrls html) rid,
        Effect.notify rid uid "new_report".toList (notifTitle topic)
          (notifMessage
            (detectNovelContent sha db.content_memory now topic html).novelFindings.length
            (detectNovelContent sha db.content_memory now topic html).novelUrls.length)] := by
  refine ⟨?_, process_content_memory sha true db now mid nid topic rid html uid, ?_⟩
  · rw [process_result, if_pos h, if_pos rfl]
  · rw [process_effects, if_pos h]

/-- Witness for C1: on a novel report with a failing notifier, the call
rejects. -/
theorem claim_C1_witness :
    (processReportMemory (fun s => s) true ⟨[], []⟩ 0 "m".toList "n".toList "t".toList
        "r".toList cexHtmlA "anonymous".toList).1 = .error () :=
  (claim_C1 (fun s => s) ⟨[], []⟩ 0 "m".toList "n".toList "t".toList "r".toList cexHtmlA
    "anonymous".toList (by decide)).1

set_option maxRecDepth 8000 in
/-- Counterexample for C1 as stated: with a failing notifier on novel
content, the call does not "return normally with
`notificationCreated = false`" — it rejects (while the memory row is
nevertheless committed). -/
theorem claim_C1_cex :
    (processReportMemory (fun s => s) true ⟨[], []⟩ 0 "m".toList "n".toList "t".toList
        "r".toList cexHtmlA "anonymous".toList).1 = .error () ∧
    (processReportMemory (fun s => s) true ⟨[], []⟩ 0 "m".toList "n".toList "t".toList
        "r".toList cexHtmlA "anonymous".toList).2.1.content_memory ≠ [] := by
  decide

/-- C6: every `processReportMemory` call attempts exactly one Content
Memory Record write, as the first effect, before any notification attempt;
at most one notification-creation call is made, and one is attempted iff
the verdict was novel; on a successful (non-rejecting) call,
`notificationCreated` is true iff `isNovel` is true; and the store gains
exactly the one new row. -/
theorem claim_C6 (sha : Str → Str) (fails : Bool) (db : DbState) (now : Nat)
    (mid nid topic rid html uid : Str) :
    ((processReportMemory sha fails db now mid nid topic rid html uid).2.2.head? =
      some (Effect.saveMem topic (generateContentHash sha (extractKeyFindings html))
        (extractKeyFindings html) (extractSourceUrls html) rid)) ∧
    ((processReportMemory sha fails db now mid nid topic rid html uid).2.2.countP
      Effect.isSave = 1) ∧
    ((processReportMemory sha fails db now mid nid topic rid html uid).2.2.countP
      Effect.isNotify ≤ 1) ∧
    ((∃ e ∈ (processReportMemory sha fails db now mid nid topic rid html uid).2.2,
        Effect.isNotify e = true) ↔
      (detectNovelContent sha db.content_memory now topic html).isNovel = true) ∧
    (∀ r, (processReportMemory sha fails db now mid nid topic rid html uid).1 = .ok r →
      r.notificationCreated = (detectNovelContent sha db.content_memory now topic html).isNovel) ∧
    ((processReportMemory sha fails db now mid nid topic rid html uid).2.1.content_memory =
      db.content_memory ++
        [{ id := mid, topic := topic,
           content_hash := generateContentHash sha (extractKeyFindings html),
           key_findings := encodeArr (extractKeyFindings html),
           source_urls := encodeArr (extractSourceUrls html),
           report_id := rid, created_at := now }]) := by
  rw [process_effects, process_result]
  by_cases hn : (detectNovelContent sha db.content_memory now topic html).isNovel = true
  · rw [if_pos hn, if_pos hn]
    refine ⟨rfl, ?_, ?_, ?_, ?_,
      process_content_memory sha fails db now mid nid topic rid html uid⟩
    · simp [List.countP_cons, Effect.isSave, Effect.isNotify]
    · simp [List.countP_cons, Effect.isSave, Effect.isNotify]
    · simp [hn, Effect.isNotify]
    · intro r hr
      cases fails with
      | true => simp at hr
      | false =>
        rw [if_neg (by simp)] at hr
        cases hr
        exact hn.symm
  · rw [if_neg hn, if_neg hn]
    refine ⟨rfl, ?_, ?_, ?_, ?_,
      process_content_memory sha fails db now mid nid topic rid html uid⟩
    · simp [List.countP_cons, Effect.isSave]
    · simp [List.countP_cons, Effect.isNotify]
    · simp [hn, Effect.isNotify, Effect.isSave]
    · intro r hr
      cases hr
      simp only [Bool.not_eq_true] at hn
      exact hn.symm

/-- Witness for C6 at a concrete call: the successful processing of a novel
report reports `notificationCreated = true`, matching the verdict. -/
theorem claim_C6_witness :
    (⟨true, extractKeyFindings cexHtmlA, true⟩ : ProcessResult).notificationCreated =
      (detectNovelContent (fun s => s) (⟨[], []⟩ : DbState).content_memory 0 "t".toList
        cexHtmlA).isNovel :=
  (claim_C6 (fun s => s) false ⟨[], []⟩ 0 "m".toList "n".toList "t".toList "r".toList
    cexHtmlA "anonymous".toList).2.2.2.2.1 ⟨true, extractKeyFindings cexHtmlA, true⟩
    (by decide)
